import Mathlib

/-!
Shallow embedding of the rolling-window variance engine of bitaxe-monitor
(`src/src/bitaxe_monitor.py`, class `HashrateHistory`) and of the stability
scorer (`src/src/variance_persistence.py`, `VarianceDataStore`), together
with theorems settling the specification claims about them.

Timestamps and metric values are modelled as exact rationals; Python's
`x ** 0.5` on a non-negative number is modelled as `Real.sqrt`.
-/

namespace Bitaxe

/-- One recorded observation: the tuple
`(timestamp, hashrate_gh, efficiency_pct, voltage_v, expected_hashrate_gh)`
stored in each miner's deque by `HashrateHistory.add_sample`. -/
structure Sample where
  timestamp : ℚ
  value : ℚ
  efficiency : ℚ
  voltage : ℚ
  expected : ℚ
  deriving DecidableEq

/-- `self.max_history_seconds = 600` : the retention horizon in seconds. -/
def max_history_seconds : ℚ := 600

/-- One `add_sample` step on a single miner's buffer: append the new sample at
the tail, then pop from the head while the head is older than
`new timestamp - max_history_seconds` (the Python `while ... popleft()` loop,
i.e. `dropWhile` on the head). -/
def appendEvict (history : List Sample) (s : Sample) : List Sample :=
  (history ++ [s]).dropWhile (fun x => decide (x.timestamp < s.timestamp - max_history_seconds))

/-- The `HashrateHistory.history` mapping (`defaultdict(deque)`): an
association list from miner name to its buffer. -/
abbrev EngineState := List (String × List Sample)

/-- `self.history.get(miner_name, deque())` : look a miner up, defaulting to
the empty buffer when the miner was never recorded. -/
def getHistory (st : EngineState) (name : String) : List Sample :=
  (List.lookup name st).getD []

/-- Replace (or create) the buffer stored under a miner name. -/
def setHistory : EngineState → String → List Sample → EngineState
  | [], name, h => [(name, h)]
  | (k, v) :: rest, name, h =>
    if name == k then (k, h) :: rest else (k, v) :: setHistory rest name h

/-- `HashrateHistory.add_sample(miner_name, timestamp, hashrate_gh,
efficiency_pct, voltage_v, expected_hashrate_gh)` : append to the miner's
buffer (created on demand by the `defaultdict`) and evict stale samples. -/
def add_sample (st : EngineState) (name : String) (t v eff volt exp : ℚ) : EngineState :=
  setHistory st name (appendEvict (getHistory st name) ⟨t, v, eff, volt, exp⟩)

/-- Python `statistics.variance`: Bessel-corrected sample variance,
`Σ (x - mean)^2 / (n - 1)` with the exact arithmetic mean. -/
def sampleVariance (l : List ℚ) : ℚ :=
  ((l.map (fun x => (x - l.sum / (l.length : ℚ)) ^ 2)).sum) / ((l.length : ℚ) - 1)

/-- Population variance, `Σ (x - mean)^2 / n` : the convention the
specification ascribes to the plain windowed variance. -/
def popVariance (l : List ℚ) : ℚ :=
  ((l.map (fun x => (x - l.sum / (l.length : ℚ)) ^ 2)).sum) / (l.length : ℚ)

/-- The `samples` list built by the loop in `calculate_variance`: the values
of the samples whose timestamp is at least the cutoff, in buffer order. -/
def windowValues (history : List Sample) (cutoff : ℚ) : List ℚ :=
  (history.filter (fun s => decide (cutoff ≤ s.timestamp))).map (fun s => s.value)

/-- `HashrateHistory.calculate_variance(miner_name, window_seconds)` :
`None` on an empty buffer, otherwise collect the values within
`window_seconds` of the most recent sample's timestamp and return
`statistics.variance` of them, `None` when fewer than 2 qualify. -/
def calculate_variance (st : EngineState) (name : String) (window : ℚ) : Option ℚ :=
  match (getHistory st name).getLast? with
  | none => none
  | some last =>
    let samples := windowValues (getHistory st name) (last.timestamp - window)
    if samples.length < 2 then none else some (sampleVariance samples)

/-- `HashrateHistory.calculate_std_dev` : `variance ** 0.5`, propagating
`None`. -/
noncomputable def calculate_std_dev (st : EngineState) (name : String) (window : ℚ) :
    Option ℝ :=
  match calculate_variance st name window with
  | none => none
  | some v => some (Real.sqrt (v : ℝ))

/-- `HashrateHistory.get_sample_count(miner_name, window_seconds)` : 0 on an
empty buffer, otherwise the number of samples with
`timestamp >= latest - window_seconds`. -/
def get_sample_count (st : EngineState) (name : String) (window : ℚ) : ℕ :=
  match (getHistory st name).getLast? with
  | none => 0
  | some last =>
    ((getHistory st name).filter
      (fun s => decide (last.timestamp - window ≤ s.timestamp))).length

/-- The dictionary returned by `calculate_directional_variance`; a `none`
field models either the value `None` or (for the counts) an absent key. -/
structure DirectionalResult where
  positive_variance : Option ℝ
  negative_variance : Option ℝ
  avg_deviation : Option ℚ
  positive_count : Option ℕ
  negative_count : Option ℕ
  total_samples : Option ℕ

/-- The all-`None` dictionary returned on empty or insufficient data. -/
def emptyDirectional : DirectionalResult := ⟨none, none, none, none, none, none⟩

/-- The single loop of `calculate_directional_variance`: for each sample in
buffer order with `timestamp >= cutoff` and `expected > 0`, append
`deviation = value - expected` to `deviations`, and to `positive_deviations`
when `deviation >= 0`, else `abs(deviation)` to `negative_deviations`. -/
def collectDevs (cutoff : ℚ) : List Sample → List ℚ × List ℚ × List ℚ
  | [] => ([], [], [])
  | s :: rest =>
    let r := collectDevs cutoff rest
    if cutoff ≤ s.timestamp ∧ 0 < s.expected then
      if 0 ≤ s.value - s.expected then
        ((s.value - s.expected) :: r.1, (s.value - s.expected) :: r.2.1, r.2.2)
      else
        ((s.value - s.expected) :: r.1, r.2.1, |s.value - s.expected| :: r.2.2)
    else r

/-- The per-group computation in `calculate_directional_variance`:
Bessel-corrected sample variance of the group, then `** 0.5`. -/
noncomputable def besselStdDev (l : List ℚ) : ℝ := Real.sqrt ((sampleVariance l : ℚ) : ℝ)

/-- `HashrateHistory.calculate_directional_variance(miner_name,
window_seconds)` : the all-`None` dictionary on an empty buffer or fewer
than 2 qualifying deviations; otherwise the mean signed deviation plus the
Bessel-corrected standard deviation of each directional group (`None` for a
group with fewer than 2 members) and the three counts. -/
noncomputable def calculate_directional_variance (st : EngineState) (name : String)
    (window : ℚ) : DirectionalResult :=
  match (getHistory st name).getLast? with
  | none => emptyDirectional
  | some last =>
    let c := collectDevs (last.timestamp - window) (getHistory st name)
    if c.1.length < 2 then emptyDirectional
    else
      ⟨if 1 < c.2.1.length then some (besselStdDev c.2.1) else none,
       if 1 < c.2.2.length then some (besselStdDev c.2.2) else none,
       some (c.1.sum / (c.1.length : ℚ)),
       some c.2.1.length, some c.2.2.length, some c.1.length⟩

/-- Python `round(q, 1)` idealised on exact rationals: round `q * 10` to the
nearest integer with ties to even, divide by 10. -/
def roundHalfEven (q : ℚ) : ℤ :=
  if q - ⌊q⌋ < 1 / 2 then ⌊q⌋
  else if 1 / 2 < q - ⌊q⌋ then ⌊q⌋ + 1
  else if ⌊q⌋ % 2 = 0 then ⌊q⌋ else ⌊q⌋ + 1

/-- Round to one decimal place (Python `round(·, 1)`). -/
def round1 (q : ℚ) : ℚ := ((roundHalfEven (q * 10) : ℤ) : ℚ) / 10

/-- Python truthiness of an optional number: `None` and `0.0` are falsy. -/
def truthy : Option ℚ → Bool
  | none => false
  | some x => decide (x ≠ 0)

/-- `VarianceDataStore._calculate_stability_score(positive_var, negative_var,
avg_deviation, expected_hashrate)` : 0 for a non-positive baseline; otherwise
penalise the deviation percentage, and — only when BOTH variance arguments
are truthy (`if positive_var and negative_var:`) — subtract the capped
average-variance percentage; round to one decimal. -/
def calculate_stability_score (positive_var negative_var : Option ℚ)
    (avg_deviation expected_hashrate : ℚ) : ℚ :=
  if expected_hashrate ≤ 0 then 0
  else
    let deviation_pct := |avg_deviation| / expected_hashrate * 100
    let base_score := max 0 (100 - deviation_pct * 2)
    let base2 :=
      if truthy positive_var ∧ truthy negative_var then
        let avg_variance := (positive_var.getD 0 + negative_var.getD 0) / 2
        let variance_pct := avg_variance / expected_hashrate * 100
        max 0 (base_score - min variance_pct 50)
      else base_score
    round1 base2

/-- The stability score as claim C4 words it: the variance penalty applies
whenever both variance fields are PRESENT (non-null), regardless of value. -/
def stability_score_claimC4 (positive_var negative_var : Option ℚ)
    (avg_deviation expected_hashrate : ℚ) : ℚ :=
  if expected_hashrate ≤ 0 then 0
  else
    let deviation_pct := |avg_deviation| / expected_hashrate * 100
    let base_score := max 0 (100 - deviation_pct * 2)
    let base2 :=
      match positive_var, negative_var with
      | some a, some b =>
        max 0 (base_score - min ((a + b) / 2 / expected_hashrate * 100) 50)
      | _, _ => base_score
    round1 base2

/-- The stability score amended to the code's actual guard: the variance
penalty applies exactly when both variance fields are present with a
non-zero value. -/
def stability_score_amended (positive_var negative_var : Option ℚ)
    (avg_deviation expected_hashrate : ℚ) : ℚ :=
  if expected_hashrate ≤ 0 then 0
  else
    let deviation_pct := |avg_deviation| / expected_hashrate * 100
    let base_score := max 0 (100 - deviation_pct * 2)
    let base2 :=
      match positive_var, negative_var with
      | some a, some b =>
        if a ≠ 0 ∧ b ≠ 0 then
          max 0 (base_score - min ((a + b) / 2 / expected_hashrate * 100) 50)
        else base_score
      | _, _ => base_score
    round1 base2

/-- The qualifying deviations of a window, stated as the specification words
them: the signed deviation `value - expected_value` of every in-window sample
whose baseline is positive, in buffer order. -/
def qualifyingDevs (history : List Sample) (cutoff : ℚ) : List ℚ :=
  (history.filter (fun s => decide (cutoff ≤ s.timestamp ∧ 0 < s.expected))).map
    (fun s => s.value - s.expected)

/-- The positive group: the deviations that are `≥ 0`. -/
def posDevs (l : List ℚ) : List ℚ := l.filter (fun d => decide (0 ≤ d))

/-- The negative group: the absolute values of the deviations that are `< 0`. -/
def negDevs (l : List ℚ) : List ℚ := (l.filter (fun d => decide (d < 0))).map (fun d => |d|)

/-- A buffer whose samples appear in non-decreasing timestamp order. -/
def TimeSorted (l : List Sample) : Prop :=
  l.Pairwise (fun a b => a.timestamp ≤ b.timestamp)

theorem getHistory_setHistory (st : EngineState) (name : String) (h : List Sample) :
    getHistory (setHistory st name h) name = h := by
  induction st with
  | nil => simp [setHistory, getHistory, List.lookup]
  | cons kv rest ih =>
    obtain ⟨k, v⟩ := kv
    by_cases hk : name == k
    · simp [setHistory, hk, getHistory, List.lookup]
    · simp only [setHistory, hk, if_neg, Bool.false_eq_true, not_false_iff, ite_false,
        getHistory, List.lookup] at ih ⊢
      simpa [hk] using ih

theorem dropWhile_concat_getLast {α : Type} (p : α → Bool) (l : List α) (a : α)
    (h : p a = false) :
    (l ++ [a]).dropWhile p ≠ [] ∧ ((l ++ [a]).dropWhile p).getLast? = some a := by
  induction l with
  | nil => simp [List.dropWhile, h]
  | cons x xs ih =>
    by_cases hx : p x
    · simpa [List.dropWhile_cons_of_pos hx] using ih
    · rw [List.cons_append, List.dropWhile_cons_of_neg (by simp [hx])]
      refine ⟨by simp, ?_⟩
      rw [← List.cons_append]
      exact List.getLast?_concat _

theorem appendEvict_getLast (history : List Sample) (s : Sample) :
    appendEvict history s ≠ [] ∧ (appendEvict history s).getLast? = some s := by
  apply dropWhile_concat_getLast
  simp only [decide_eq_false_iff_not, not_lt, max_history_seconds]
  linarith

theorem dropWhile_eq_filter_of_sorted (c : ℚ) (l : List Sample) (hs : TimeSorted l) :
    l.dropWhile (fun x => decide (x.timestamp < c)) =
      l.filter (fun x => decide (c ≤ x.timestamp)) := by
  induction l with
  | nil => rfl
  | cons x xs ih =>
    simp only [TimeSorted, List.pairwise_cons] at hs
    by_cases hx : x.timestamp < c
    · rw [List.dropWhile_cons_of_pos (by simpa using hx),
        List.filter_cons_of_neg (by simpa using not_le.mpr hx)]
      exact ih hs.2
    · rw [List.dropWhile_cons_of_neg (by simpa using hx),
        List.filter_cons_of_pos (by simpa using not_lt.mp hx)]
      congr 1
      symm
      rw [List.filter_eq_self]
      intro a ha
      have hxa := hs.1 a ha
      have hcx : c ≤ x.timestamp := not_lt.mp hx
      simp only [decide_eq_true_eq]
      linarith

theorem ts_le_getLast (l : List Sample) (a : Sample) (hs : TimeSorted l)
    (h : l.getLast? = some a) : ∀ s ∈ l, s.timestamp ≤ a.timestamp := by
  have hd : l.dropLast ++ [a] = l := List.dropLast_append_getLast? a (by rw [h]; rfl)
  intro s hsmem
  rw [← hd] at hs hsmem
  simp only [TimeSorted, List.pairwise_append] at hs
  rcases List.mem_append.mp hsmem with h1 | h2
  · exact hs.2.2 s h1 a (by simp)
  · simp only [List.mem_singleton] at h2
    subst h2
    exact le_refl _

theorem getLast?_filter (p : Sample → Bool) (l : List Sample) (a : Sample)
    (h : l.getLast? = some a) (hp : p a = true) : (l.filter p).getLast? = some a := by
  have hd : l.dropLast ++ [a] = l := List.dropLast_append_getLast? a (by rw [h]; rfl)
  rw [← hd, List.filter_append]
  rw [show List.filter p [a] = [a] from by simp [hp]]
  exact List.getLast?_concat _

theorem length_filter_mono (p q : Sample → Bool) (l : List Sample)
    (h : ∀ a ∈ l, p a = true → q a = true) :
    (l.filter p).length ≤ (l.filter q).length := by
  induction l with
  | nil => simp
  | cons x xs ih =>
    have ih2 := ih (fun a ha => h a (List.mem_cons_of_mem _ ha))
    by_cases hp : p x
    · rw [List.filter_cons_of_pos hp, List.filter_cons_of_pos (h x (List.mem_cons_self _ _) hp)]
      simpa using ih2
    · rw [List.filter_cons_of_neg (by simp [hp])]
      by_cases hq : q x
      · rw [List.filter_cons_of_pos hq]
        simp only [List.length_cons]
        omega
      · rw [List.filter_cons_of_neg (by simp [hq])]
        exact ih2

theorem sampleVariance_nonneg (l : List ℚ) (h : 1 ≤ l.length) : 0 ≤ sampleVariance l := by
  unfold sampleVariance
  apply div_nonneg
  · apply List.sum_nonneg
    intro x hx
    simp only [List.mem_map] at hx
    obtain ⟨y, _, rfl⟩ := hx
    positivity
  · have h1 : (1 : ℚ) ≤ (l.length : ℚ) := by exact_mod_cast h
    linarith

theorem sampleVariance_eq_pop (l : List ℚ) (h : 2 ≤ l.length) :
    sampleVariance l = ((l.length : ℚ) / ((l.length : ℚ) - 1)) * popVariance l := by
  have h2 : (2 : ℚ) ≤ (l.length : ℚ) := by exact_mod_cast h
  have h0 : (l.length : ℚ) ≠ 0 := by linarith
  have h1 : (l.length : ℚ) - 1 ≠ 0 := by intro hc; linarith [sub_eq_zero.mp hc]
  unfold sampleVariance popVariance
  field_simp
  ring

theorem collectDevs_eq (cutoff : ℚ) (l : List Sample) :
    collectDevs cutoff l =
      (qualifyingDevs l cutoff, posDevs (qualifyingDevs l cutoff),
        negDevs (qualifyingDevs l cutoff)) := by
  induction l with
  | nil => rfl
  | cons s rest ih =>
    by_cases hq : cutoff ≤ s.timestamp ∧ 0 < s.expected
    · by_cases hd : 0 ≤ s.value - s.expected
      · simp [collectDevs, hq, hd, qualifyingDevs, posDevs, negDevs, List.filter_cons,
          not_lt.mpr hd, ih]
      · simp [collectDevs, hq, hd, qualifyingDevs, posDevs, negDevs, List.filter_cons,
          not_le.mp hd, ih]
    · simp [collectDevs, hq, qualifyingDevs, posDevs, negDevs, List.filter_cons, ih]

theorem foldl_appendEvict_eq_filter (cs : List Sample) (hs : TimeSorted cs) (a : Sample)
    (h : cs.getLast? = some a) :
    cs.foldl appendEvict [] =
      cs.filter (fun s => decide (a.timestamp - max_history_seconds ≤ s.timestamp)) := by
  induction cs using List.reverseRecOn generalizing a with
  | nil => simp at h
  | append_singleton ds c ih =>
    rw [List.getLast?_concat] at h
    have hca : c = a := Option.some.inj h
    rw [← hca]
    simp only [TimeSorted, List.pairwise_append] at hs
    have hds : TimeSorted ds := hs.1
    have hbound : ∀ x ∈ ds, x.timestamp ≤ c.timestamp := fun x hx => hs.2.2 x hx c (by simp)
    rw [List.foldl_append, List.foldl_cons, List.foldl_nil]
    rcases hdlast : ds.getLast? with _ | b
    · rw [List.getLast?_eq_none_iff] at hdlast
      subst hdlast
      simp only [List.foldl_nil, List.nil_append]
      unfold appendEvict
      simp only [List.nil_append]
      rw [List.dropWhile_cons_of_neg (by
        simp only [decide_eq_true_eq, not_lt, max_history_seconds]; linarith)]
      rw [List.filter_cons_of_pos (by
        simp only [decide_eq_true_eq, max_history_seconds]; linarith)]
      rfl
    · have hble : b.timestamp ≤ c.timestamp :=
        hbound b (List.mem_of_mem_getLast? (by rw [hdlast]; rfl))
      rw [ih hds b hdlast]
      unfold appendEvict
      have hsorted2 : TimeSorted
          ((ds.filter (fun s => decide (b.timestamp - max_history_seconds ≤ s.timestamp)))
            ++ [c]) := by
        simp only [TimeSorted, List.pairwise_append]
        refine ⟨List.Pairwise.filter _ hds, List.pairwise_singleton _ _, ?_⟩
        intro x hx y hy
        simp only [List.mem_singleton] at hy
        subst hy
        exact hbound x (List.mem_of_mem_filter hx)
      rw [dropWhile_eq_filter_of_sorted _ _ hsorted2]
      rw [List.filter_append, List.filter_append]
      congr 1
      rw [List.filter_filter]
      apply List.filter_congr
      intro s hsm
      by_cases hq : c.timestamp - max_history_seconds ≤ s.timestamp
      · have hq2 : b.timestamp - max_history_seconds ≤ s.timestamp := by linarith
        simp [hq, hq2]
      · simp [hq]

/-- Claim C3: for every sequence of appends with non-decreasing timestamps,
after each append the buffer holds exactly the samples whose timestamp is at
least the newest timestamp minus the 600-second horizon; in particular every
remaining sample satisfies `timestamp ≥ latest_timestamp - horizon`. -/
theorem claim3_monotonic_eviction (cs : List Sample) (hs : TimeSorted cs) (n : ℕ) :
    (∀ a, (cs.take n).getLast? = some a →
      (cs.take n).foldl appendEvict [] =
        (cs.take n).filter
          (fun s => decide (a.timestamp - max_history_seconds ≤ s.timestamp))) ∧
    (∀ a, ((cs.take n).foldl appendEvict []).getLast? = some a →
      ∀ s ∈ (cs.take n).foldl appendEvict [],
        a.timestamp - max_history_seconds ≤ s.timestamp) := by
  have hsn : TimeSorted (cs.take n) := List.Pairwise.sublist (List.take_sublist n cs) hs
  constructor
  · intro a ha
    exact foldl_appendEvict_eq_filter _ hsn a ha
  · intro a ha s hsm
    rcases hlast : (cs.take n).getLast? with _ | b
    · rw [List.getLast?_eq_none_iff] at hlast
      rw [hlast] at ha
      simp at ha
    · have heq := foldl_appendEvict_eq_filter _ hsn b hlast
      have hb : ((cs.take n).foldl appendEvict []).getLast? = some b := by
        rw [heq]
        apply getLast?_filter _ _ _ hlast
        simp only [decide_eq_true_eq, max_history_seconds]
        linarith
      rw [ha] at hb
      injection hb with hb
      subst hb
      rw [heq] at hsm
      have hmem := List.mem_filter.mp hsm
      simpa using hmem.2

/-- Witness for C3: two appends at t=0 and t=30 keep both samples, which both
lie within the 600-second horizon of the latest timestamp. -/
theorem claim3_witness :
    (([⟨0, 1200, 0, 0, 1200⟩, ⟨30, 1205, 0, 0, 1200⟩] : List Sample).take 2).foldl
        appendEvict [] =
      ([⟨0, 1200, 0, 0, 1200⟩, ⟨30, 1205, 0, 0, 1200⟩] : List Sample) := by
  have h := (claim3_monotonic_eviction
    ([⟨0, 1200, 0, 0, 1200⟩, ⟨30, 1205, 0, 0, 1200⟩] : List Sample)
    (by norm_num [TimeSorted, List.pairwise_cons]) 2).1 ⟨30, 1205, 0, 0, 1200⟩ (by rfl)
  rw [h]
  norm_num [List.take_succ_cons, List.take_nil, List.filter_cons, List.filter_nil,
    max_history_seconds]

/-- Claim C8: querying a miner name that was never recorded yields the empty
result — sample count 0 and all-null statistics — for every window and every
engine state. -/
theorem claim8_unknown_entity (st : EngineState) (name : String) (window : ℚ)
    (h : List.lookup name st = none) :
    get_sample_count st name window = 0 ∧
    calculate_variance st name window = none ∧
    calculate_std_dev st name window = none ∧
    calculate_directional_variance st name window = emptyDirectional := by
  have hg : getHistory st name = [] := by simp [getHistory, h]
  refine ⟨?_, ?_, ?_, ?_⟩
  · simp [get_sample_count, hg]
  · simp [calculate_variance, hg]
  · simp [calculate_std_dev, calculate_variance, hg]
  · simp [calculate_directional_variance, hg]

/-- Witness for C8: querying "B" on an engine that only ever recorded "A". -/
theorem claim8_witness :
    get_sample_count [("A", [⟨0, 1, 0, 0, 1⟩])] "B" 60 = 0 ∧
    calculate_variance [("A", [⟨0, 1, 0, 0, 1⟩])] "B" 60 = none ∧
    calculate_std_dev [("A", [⟨0, 1, 0, 0, 1⟩])] "B" 60 = none ∧
    calculate_directional_variance [("A", [⟨0, 1, 0, 0, 1⟩])] "B" 60 = emptyDirectional :=
  claim8_unknown_entity [("A", [⟨0, 1, 0, 0, 1⟩])] "B" 60 rfl

/-- Claim C9: for the same store state, a smaller window never counts more
samples than a larger one. -/
theorem claim9_window_containment (st : EngineState) (name : String) (w1 w2 : ℚ)
    (h : w1 ≤ w2) :
    get_sample_count st name w1 ≤ get_sample_count st name w2 := by
  rcases hlast : (getHistory st name).getLast? with _ | last
  · simp [get_sample_count, hlast]
  · simp only [get_sample_count, hlast]
    apply length_filter_mono
    intro a _ hp
    simp only [decide_eq_true_eq] at hp ⊢
    linarith

/-- Witness for C9: with samples at t=0 and t=30, the 10-second window counts
no more samples than the 60-second window. -/
theorem claim9_witness :
    get_sample_count [("M1", [⟨0, 1200, 0, 0, 1200⟩, ⟨30, 1205, 0, 0, 1200⟩])] "M1" 10 ≤
      get_sample_count [("M1", [⟨0, 1200, 0, 0, 1200⟩, ⟨30, 1205, 0, 0, 1200⟩])] "M1" 60 :=
  claim9_window_containment _ "M1" 10 60 (by norm_num)

/-- Claim C10: an append never evicts the sample it inserts: afterwards the
buffer is non-empty, its last element is the new sample, and any query with a
non-negative window counts at least one sample. -/
theorem claim10_append_keeps_new (st : EngineState) (name : String) (t v eff volt exp : ℚ) :
    getHistory (add_sample st name t v eff volt exp) name ≠ [] ∧
    (getHistory (add_sample st name t v eff volt exp) name).getLast? =
      some ⟨t, v, eff, volt, exp⟩ ∧
    ∀ w : ℚ, 0 ≤ w → 1 ≤ get_sample_count (add_sample st name t v eff volt exp) name w := by
  have hgh : getHistory (add_sample st name t v eff volt exp) name =
      appendEvict (getHistory st name) ⟨t, v, eff, volt, exp⟩ := by
    unfold add_sample
    exact getHistory_setHistory _ _ _
  have hae := appendEvict_getLast (getHistory st name) ⟨t, v, eff, volt, exp⟩
  refine ⟨by rw [hgh]; exact hae.1, by rw [hgh]; exact hae.2, ?_⟩
  intro w hw
  have hmem : (⟨t, v, eff, volt, exp⟩ : Sample) ∈
      appendEvict (getHistory st name) ⟨t, v, eff, volt, exp⟩ :=
    List.mem_of_mem_getLast? (by rw [hae.2]; rfl)
  simp only [get_sample_count, hgh, hae.2]
  have hfil : (⟨t, v, eff, volt, exp⟩ : Sample) ∈
      (appendEvict (getHistory st name) ⟨t, v, eff, volt, exp⟩).filter
        (fun s => decide ((⟨t, v, eff, volt, exp⟩ : Sample).timestamp - w ≤ s.timestamp)) := by
    apply List.mem_filter.mpr
    refine ⟨hmem, ?_⟩
    simp only [decide_eq_true_eq]
    linarith
  exact List.length_pos_of_mem hfil

/-- Witness for C10: appending the first sample for "M1" leaves a buffer whose
60-second window counts at least one sample. -/
theorem claim10_witness :
    1 ≤ get_sample_count (add_sample [] "M1" 0 1200 0 0 1200) "M1" 60 :=
  (claim10_append_keeps_new [] "M1" 0 1200 0 0 1200).2.2 60 (by norm_num)

/-- Claim C7: the plain variance is null exactly when fewer than 2 samples
qualify, the standard deviation is null under the same condition, and
otherwise the standard deviation is the non-negative square root of the
variance. -/
theorem claim7_null_below_threshold (st : EngineState) (name : String) (window : ℚ) :
    (calculate_variance st name window = none ↔ get_sample_count st name window ≤ 1) ∧
    (calculate_std_dev st name window = none ↔ get_sample_count st name window ≤ 1) ∧
    ∀ v : ℚ, calculate_variance st name window = some v →
      calculate_std_dev st name window = some (Real.sqrt (v : ℝ)) ∧
      0 ≤ Real.sqrt (v : ℝ) ∧ Real.sqrt (v : ℝ) ^ 2 = (v : ℝ) := by
  rcases hlast : (getHistory st name).getLast? with _ | last
  · refine ⟨?_, ?_, ?_⟩
    · simp [calculate_variance, get_sample_count, hlast]
    · simp [calculate_std_dev, calculate_variance, get_sample_count, hlast]
    · intro v hv
      simp [calculate_variance, hlast] at hv
  · have hlen : (windowValues (getHistory st name) (last.timestamp - window)).length =
        get_sample_count st name window := by
      simp [windowValues, get_sample_count, hlast]
    by_cases hn : (windowValues (getHistory st name) (last.timestamp - window)).length < 2
    · have hc : get_sample_count st name window ≤ 1 := by omega
      refine ⟨?_, ?_, ?_⟩
      · simp [calculate_variance, hlast, hn, hc]
      · simp [calculate_std_dev, calculate_variance, hlast, hn, hc]
      · intro v hv
        simp [calculate_variance, hlast, hn] at hv
    · have hvar : calculate_variance st name window =
          some (sampleVariance (windowValues (getHistory st name)
            (last.timestamp - window))) := by
        simp [calculate_variance, hlast, hn]
      have hcount : ¬ get_sample_count st name window ≤ 1 := by omega
      refine ⟨?_, ?_, ?_⟩
      · simp [hvar, hcount]
      · simp [calculate_std_dev, hvar, hcount]
      · intro v hv
        rw [hvar] at hv
        injection hv with hv
        subst hv
        refine ⟨by simp [calculate_std_dev, hvar], Real.sqrt_nonneg _, ?_⟩
        apply Real.sq_sqrt
        have hnn := sampleVariance_nonneg
          (windowValues (getHistory st name) (last.timestamp - window)) (by omega)
        exact_mod_cast hnn

/-- Witness for C7: a store with a single sample yields a null variance. -/
theorem claim7_witness :
    calculate_variance [("S", [⟨0, 1000, 0, 0, 1000⟩])] "S" 60 = none :=
  (claim7_null_below_threshold [("S", [⟨0, 1000, 0, 0, 1000⟩])] "S" 60).1.mpr
    (by norm_num [get_sample_count, getHistory, List.lookup, List.filter_cons,
      List.filter_nil])

/-- The engine state of the worked example: record `(t=0, 1200, expected 1200)`
and then `(t=30, 1205, expected 1200)` for miner "M1". -/
def exM1 : EngineState :=
  add_sample (add_sample [] "M1" 0 1200 0 0 1200) "M1" 30 1205 0 0 1200

theorem exM1_eq : exM1 = [("M1", [⟨0, 1200, 0, 0, 1200⟩, ⟨30, 1205, 0, 0, 1200⟩])] := by
  norm_num [exM1, add_sample, getHistory, setHistory, appendEvict, max_history_seconds,
    List.lookup, List.dropWhile_cons, List.dropWhile_nil]

theorem exM1_history :
    getHistory exM1 "M1" = [⟨0, 1200, 0, 0, 1200⟩, ⟨30, 1205, 0, 0, 1200⟩] := by
  rw [exM1_eq]
  simp [getHistory, List.lookup]

theorem exM1_count : get_sample_count exM1 "M1" 60 = 2 := by
  simp only [get_sample_count, exM1_history]
  norm_num [List.filter_cons, List.filter_nil]

theorem exM1_variance : calculate_variance exM1 "M1" 60 = some (25 / 2) := by
  simp only [calculate_variance, exM1_history]
  norm_num [windowValues, sampleVariance, List.filter_cons, List.filter_nil]

/-- Counterexample to C1 as stated: on the worked example the code returns
25/2 = 12.5 (Bessel-corrected sample variance), not the population variance
25/4 = 6.25 the claim asserts. -/
theorem claim1_counterexample : calculate_variance exM1 "M1" 60 ≠ some (25 / 4) := by
  rw [exM1_variance]
  simp only [ne_eq, Option.some.injEq]
  norm_num

/-- Claim C1 (amended): the plain windowed variance is the Bessel-corrected
sample variance — `n/(n-1)` times the population variance — of the qualifying
values; on the worked example it yields sample_count 2, variance 12.5 and
std_dev √12.5. -/
theorem claim1_sample_variance :
    (∀ (st : EngineState) (name : String) (window : ℚ) (last : Sample),
      (getHistory st name).getLast? = some last →
      2 ≤ (windowValues (getHistory st name) (last.timestamp - window)).length →
      calculate_variance st name window =
        some ((((windowValues (getHistory st name) (last.timestamp - window)).length : ℚ) /
            (((windowValues (getHistory st name)
              (last.timestamp - window)).length : ℚ) - 1)) *
          popVariance (windowValues (getHistory st name) (last.timestamp - window)))) ∧
    get_sample_count exM1 "M1" 60 = 2 ∧
    calculate_variance exM1 "M1" 60 = some (25 / 2) ∧
    calculate_std_dev exM1 "M1" 60 = some (Real.sqrt ((25 : ℝ) / 2)) := by
  refine ⟨?_, exM1_count, exM1_variance, ?_⟩
  · intro st name window last hlast hlen
    simp only [calculate_variance, hlast]
    rw [if_neg (by omega)]
    rw [sampleVariance_eq_pop _ hlen]
  · simp only [calculate_std_dev, exM1_variance]
    norm_num

/-- Witness for C1: the general sample-variance form instantiated on the
worked example. -/
theorem claim1_witness :
    calculate_variance exM1 "M1" 60 =
      some ((((windowValues (getHistory exM1 "M1") ((30 : ℚ) - 60)).length : ℚ) /
          (((windowValues (getHistory exM1 "M1") ((30 : ℚ) - 60)).length : ℚ) - 1)) *
        popVariance (windowValues (getHistory exM1 "M1") ((30 : ℚ) - 60))) := by
  have h := claim1_sample_variance.1 exM1 "M1" 60 ⟨30, 1205, 0, 0, 1200⟩
    (by rw [exM1_history]; simp)
    (by rw [exM1_history]; norm_num [windowValues, List.filter_cons, List.filter_nil])
  simpa using h

/-- Claim C2: directional variance considers exactly the in-window samples
with a positive baseline; the mean deviation is the arithmetic mean of all
signed deviations; each directional group reports the Bessel-corrected sample
standard deviation (null below 2 members); and all fields are null when fewer
than 2 qualifying deviations exist. -/
theorem claim2_directional_variance (st : EngineState) (name : String) (window : ℚ) :
    ((getHistory st name).getLast? = none →
      calculate_directional_variance st name window = emptyDirectional) ∧
    (∀ last, (getHistory st name).getLast? = some last →
      (qualifyingDevs (getHistory st name) (last.timestamp - window)).length < 2 →
      calculate_directional_variance st name window = emptyDirectional) ∧
    (∀ last devs, (getHistory st name).getLast? = some last →
      devs = qualifyingDevs (getHistory st name) (last.timestamp - window) →
      2 ≤ devs.length →
      (calculate_directional_variance st name window).avg_deviation =
          some (devs.sum / (devs.length : ℚ)) ∧
      (calculate_directional_variance st name window).total_samples = some devs.length ∧
      (calculate_directional_variance st name window).positive_count =
          some (posDevs devs).length ∧
      (calculate_directional_variance st name window).negative_count =
          some (negDevs devs).length ∧
      ((posDevs devs).length < 2 →
        (calculate_directional_variance st name window).positive_variance = none) ∧
      (2 ≤ (posDevs devs).length →
        (calculate_directional_variance st name window).positive_variance =
          some (Real.sqrt ((sampleVariance (posDevs devs) : ℚ) : ℝ))) ∧
      ((negDevs devs).length < 2 →
        (calculate_directional_variance st name window).negative_variance = none) ∧
      (2 ≤ (negDevs devs).length →
        (calculate_directional_variance st name window).negative_variance =
          some (Real.sqrt ((sampleVariance (negDevs devs) : ℚ) : ℝ)))) := by
  refine ⟨?_, ?_, ?_⟩
  · intro h
    simp [calculate_directional_variance, h]
  · intro last hlast hlen
    simp only [calculate_directional_variance, hlast, collectDevs_eq]
    rw [if_pos hlen]
  · intro last devs hlast hdevs hlen
    subst hdevs
    simp only [calculate_directional_variance, hlast, collectDevs_eq]
    rw [if_neg (by omega)]
    refine ⟨rfl, rfl, rfl, rfl, ?_, ?_, ?_, ?_⟩
    · intro hp
      exact if_neg (by omega)
    · intro hp
      exact if_pos (by omega)
    · intro hp
      exact if_neg (by omega)
    · intro hp
      exact if_pos (by omega)

/-- Witness for C2: the worked two-sample example reports the mean of its two
signed deviations. -/
theorem claim2_witness :
    (calculate_directional_variance exM1 "M1" 60).avg_deviation =
      some ((qualifyingDevs (getHistory exM1 "M1") ((30 : ℚ) - 60)).sum /
        ((qualifyingDevs (getHistory exM1 "M1") ((30 : ℚ) - 60)).length : ℚ)) := by
  have h := ((claim2_directional_variance exM1 "M1" 60).2.2 ⟨30, 1205, 0, 0, 1200⟩
    (qualifyingDevs (getHistory exM1 "M1")
      ((⟨30, 1205, 0, 0, 1200⟩ : Sample).timestamp - 60))
    (by rw [exM1_history]; simp) rfl
    (by rw [exM1_history]; norm_num [qualifyingDevs, List.filter_cons, List.filter_nil])).1
  simpa using h

/-- Counterexample to C6: two samples sharing one timestamp and a zero window
size make `calculate_variance` return the normal value 2 — nothing is raised
and no error is signalled. -/
theorem claim6_counterexample :
    calculate_variance [("A", [⟨0, 1, 0, 0, 0⟩, ⟨0, 3, 0, 0, 0⟩])] "A" 0 = some 2 := by
  norm_num [calculate_variance, getHistory, List.lookup, windowValues, sampleVariance,
    List.filter_cons, List.filter_nil]

/-- Claim C6 (amended): window-statistics operations perform no validation of
the window size: they never raise; on a time-sorted store a negative window
yields null statistics and a zero sample count (and a zero window simply
computes over the samples sharing the latest timestamp). -/
theorem claim6_no_validation (st : EngineState) (name : String) (window : ℚ)
    (hsort : TimeSorted (getHistory st name)) (hw : window < 0) :
    calculate_variance st name window = none ∧
    calculate_std_dev st name window = none ∧
    get_sample_count st name window = 0 ∧
    calculate_directional_variance st name window = emptyDirectional := by
  rcases hlast : (getHistory st name).getLast? with _ | last
  · refine ⟨by simp [calculate_variance, hlast], ?_, by simp [get_sample_count, hlast],
      by simp [calculate_directional_variance, hlast]⟩
    simp [calculate_std_dev, calculate_variance, hlast]
  · have hle := ts_le_getLast _ _ hsort hlast
    have hfil : (getHistory st name).filter
        (fun s => decide (last.timestamp - window ≤ s.timestamp)) = [] := by
      rw [List.filter_eq_nil_iff]
      intro a ha
      simp only [decide_eq_true_eq, not_le]
      have := hle a ha
      linarith
    have hfil2 : (getHistory st name).filter
        (fun s => decide (last.timestamp - window ≤ s.timestamp ∧ 0 < s.expected)) = [] := by
      rw [List.filter_eq_nil_iff]
      intro a ha
      simp only [decide_eq_true_eq, not_and, not_lt]
      intro hcon
      have := hle a ha
      linarith
    have hvar : calculate_variance st name window = none := by
      simp only [calculate_variance, hlast, windowValues, hfil, List.map_nil,
        List.length_nil]
      rfl
    refine ⟨hvar, by simp [calculate_std_dev, hvar],
      by simp only [get_sample_count, hlast, hfil, List.length_nil], ?_⟩
    simp only [calculate_directional_variance, hlast, collectDevs_eq, qualifyingDevs, hfil2,
      List.map_nil, List.length_nil]
    rfl

/-- Witness for C6: a negative window on the worked example yields null
statistics and a zero count rather than an exception. -/
theorem claim6_witness :
    calculate_variance exM1 "M1" (-5) = none ∧
    calculate_std_dev exM1 "M1" (-5) = none ∧
    get_sample_count exM1 "M1" (-5) = 0 ∧
    calculate_directional_variance exM1 "M1" (-5) = emptyDirectional :=
  claim6_no_validation exM1 "M1" (-5)
    (by rw [exM1_history]; norm_num [TimeSorted, List.pairwise_cons]) (by norm_num)

theorem roundHalfEven_nonneg (q : ℚ) (h : 0 ≤ q) : 0 ≤ roundHalfEven q := by
  unfold roundHalfEven
  have hf : 0 ≤ ⌊q⌋ := Int.floor_nonneg.mpr h
  split_ifs <;> omega

theorem roundHalfEven_le (q : ℚ) (m : ℤ) (h : q ≤ (m : ℚ)) : roundHalfEven q ≤ m := by
  have hfm : ⌊q⌋ ≤ m := by
    have := Int.floor_le_floor h
    simpa using this
  unfold roundHalfEven
  split_ifs with h1 h2 h3
  · exact hfm
  · have hlt : (⌊q⌋ : ℚ) < q := by linarith
    have hltm : ⌊q⌋ < m := by
      have : (⌊q⌋ : ℚ) < (m : ℚ) := lt_of_lt_of_le hlt h
      exact_mod_cast this
    omega
  · exact hfm
  · have hlt : (⌊q⌋ : ℚ) < q := by linarith
    have hltm : ⌊q⌋ < m := by
      have : (⌊q⌋ : ℚ) < (m : ℚ) := lt_of_lt_of_le hlt h
      exact_mod_cast this
    omega

theorem round1_nonneg (q : ℚ) (h : 0 ≤ q) : 0 ≤ round1 q := by
  unfold round1
  apply div_nonneg _ (by norm_num)
  exact_mod_cast roundHalfEven_nonneg (q * 10) (by linarith)

theorem round1_le_100 (q : ℚ) (h : q ≤ 100) : round1 q ≤ 100 := by
  unfold round1
  rw [div_le_iff₀ (by norm_num)]
  have hb := roundHalfEven_le (q * 10) 1000 (by push_cast; linarith)
  have : ((roundHalfEven (q * 10) : ℤ) : ℚ) ≤ ((1000 : ℤ) : ℚ) := by exact_mod_cast hb
  push_cast at this ⊢
  linarith

/-- Counterexample to C4 as stated: with `positive_variance = 0` present and
`negative_variance = 10` present, the code skips the variance penalty
(Python truthiness treats `0.0` as absent) and returns 100, while the claim's
formula subtracts the penalty and yields 95. -/
theorem claim4_counterexample :
    calculate_stability_score (some 0) (some 10) 0 100 ≠
      stability_score_claimC4 (some 0) (some 10) 0 100 := by
  norm_num [calculate_stability_score, stability_score_claimC4, truthy, round1,
    roundHalfEven]

/-- Claim C4 (amended): the stability score follows the claimed formula except
that the variance penalty applies only when both variance fields are present
AND non-zero (the code's truthiness guard), not merely present. -/
theorem claim4_stability_formula (pv nv : Option ℚ) (avg e : ℚ) :
    calculate_stability_score pv nv avg e = stability_score_amended pv nv avg e := by
  cases pv with
  | none =>
    cases nv <;> simp [calculate_stability_score, stability_score_amended, truthy]
  | some a =>
    cases nv with
    | none => simp [calculate_stability_score, stability_score_amended, truthy]
    | some b =>
      simp only [calculate_stability_score, stability_score_amended, truthy,
        Option.getD_some, decide_eq_true_eq]

/-- Claim C5: for non-negative variance inputs the stability score always lies
in the closed interval [0, 100]. -/
theorem claim5_score_bounds (pv nv : Option ℚ) (avg e : ℚ)
    (hp : ∀ x, pv = some x → 0 ≤ x) (hn : ∀ x, nv = some x → 0 ≤ x) :
    0 ≤ calculate_stability_score pv nv avg e ∧
      calculate_stability_score pv nv avg e ≤ 100 := by
  by_cases hexp : e ≤ 0
  · simp only [calculate_stability_score, if_pos hexp]
    norm_num
  · have he : 0 < e := lt_of_not_le hexp
    simp only [calculate_stability_score, if_neg hexp]
    have hd0 : 0 ≤ |avg| / e * 100 := by positivity
    have hb0 : (0 : ℚ) ≤ max 0 (100 - |avg| / e * 100 * 2) := le_max_left _ _
    have hb100 : max 0 (100 - |avg| / e * 100 * 2) ≤ 100 :=
      max_le (by norm_num) (by linarith)
    by_cases htr : truthy pv ∧ truthy nv
    · rw [if_pos htr]
      rcases pv with _ | a
      · simp [truthy] at htr
      rcases nv with _ | b
      · simp [truthy] at htr
      have ha : 0 ≤ a := hp a rfl
      have hb : 0 ≤ b := hn b rfl
      simp only [Option.getD_some]
      have hv0 : 0 ≤ (a + b) / 2 / e * 100 := by positivity
      have hm0 : 0 ≤ min ((a + b) / 2 / e * 100) 50 := le_min hv0 (by norm_num)
      constructor
      · exact round1_nonneg _ (le_max_left _ _)
      · apply round1_le_100
        apply max_le (by norm_num)
        linarith
    · rw [if_neg htr]
      exact ⟨round1_nonneg _ hb0, round1_le_100 _ hb100⟩

/-- Witness for C5: a concrete non-negative input combination stays within
[0, 100]. -/
theorem claim5_witness :
    0 ≤ calculate_stability_score (some 5) (some 3) 10 1200 ∧
      calculate_stability_score (some 5) (some 3) 10 1200 ≤ 100 :=
  claim5_score_bounds (some 5) (some 3) 10 1200
    (fun x hx => by rw [← Option.some.inj hx]; norm_num)
    (fun x hx => by rw [← Option.some.inj hx]; norm_num)


end Bitaxe
